import Mathlib

/-!
A shallow embedding of the aggregation pipeline in `src/data_pipeline.py`
(functions `clean_customer_data`, `clean_purchase_data`, `transform_data`,
`main`), together with proofs of the specified properties.

Modelling conventions:
* A pandas DataFrame is an ordered list of record structures.
* Dates are `Date` triples (year, month, day); `pd.to_datetime` applied to a
  column is modelled by `dvParse` mapped over the rows, restricted to the
  fixed `YYYY-MM-DD` source format (the only format the repository produces);
  it fails (`none`) on a malformed string, which models the exception that
  aborts the whole run.  A column cell that already holds a datetime is left
  unchanged, so a cell is a `DateVal` (string or parsed date).
* Currency is exact 2-place decimal, represented in integer cents, so
  `quantity * price` and sums are exact, matching the decimal data model.
* `df.drop_duplicates(subset='email', keep='first')` is modelled by
  `dedupByEmail` (first occurrence wins, comparison on the raw cell value).
* `df['email'].str.lower()` is modelled by `strLower`, i.e. `Char.toLower`
  mapped over the characters.
* The regex `^[\w\.-]+@[\w\.-]+\.\w+$` is modelled by `emailOk`: a full
  match is a decomposition local `@` domain, where the local part is a
  nonempty run of word/dot/hyphen characters and the domain part decomposes
  as a nonempty word/dot/hyphen run, a dot, and a nonempty word run.  Since
  word/dot/hyphen never matches `@` and the final word run never matches a
  dot, the split is at the first `@` and the last dot.
* `merge(..., how='left')` keeps every left row, replicating it per matching
  right row; `groupby('customer_id')` partitions the merged rows by key
  (pandas emits groups sorted by key; the spec leaves summary row order
  implementation-defined and no property below depends on it, so groups are
  enumerated here in first-occurrence order); the final
  `merge(..., on='customer_id')` uses the pandas default inner join.
* `main` returns the three in-memory tables to be written, or `none` when a
  date-parse failure aborts the run before anything is saved;
  `outputFiles` lists the files the run writes.
-/

/-- A calendar date, as produced by parsing a `YYYY-MM-DD` string. -/
structure Date where
  year : Nat
  month : Nat
  day : Nat
deriving DecidableEq

/-- A cell of a date column: either a raw string or an already-parsed date
(a pandas column is dynamically typed, and the cleaners are re-runnable on
their own output). -/
inductive DateVal where
  | strv : String → DateVal
  | dt : Date → DateVal
deriving DecidableEq

/-- Gregorian leap-year test. -/
def isLeapYear (y : Nat) : Bool :=
  (y % 4 == 0 && y % 100 != 0) || y % 400 == 0

/-- Number of days in a month. -/
def daysInMonth (y m : Nat) : Nat :=
  if m = 2 then (if isLeapYear y then 29 else 28)
  else if m = 4 ∨ m = 6 ∨ m = 9 ∨ m = 11 then 30
  else 31

/-- Value of a run of decimal digits. -/
def digitsVal (cs : List Char) : Nat :=
  cs.foldl (fun acc c => 10 * acc + (c.toNat - 48)) 0

/-- Parse a `YYYY-MM-DD` string into a date; `none` on any malformed input.
Models `pd.to_datetime` on the fixed format the repository uses. -/
def parseDate (s : String) : Option Date :=
  match s.toList with
  | [y1, y2, y3, y4, '-', m1, m2, '-', d1, d2] =>
    if (y1.isDigit && y2.isDigit && y3.isDigit && y4.isDigit &&
        m1.isDigit && m2.isDigit && d1.isDigit && d2.isDigit) then
      let y := digitsVal [y1, y2, y3, y4]
      let m := digitsVal [m1, m2]
      let d := digitsVal [d1, d2]
      if 1 ≤ m ∧ m ≤ 12 ∧ 1 ≤ d ∧ d ≤ daysInMonth y m then some ⟨y, m, d⟩
      else none
    else none
  | _ => none

/-- `pd.to_datetime` on a single cell: parse a string, keep a datetime. -/
def dvParse : DateVal → Option Date
  | .strv s => parseDate s
  | .dt d => some d

/-- Day number of a date (days since the proleptic epoch), used to compare
dates and to take date differences in whole days, as `.dt.days` does. -/
def toDays (d : Date) : Nat :=
  365 * (d.year - 1) + (d.year - 1) / 4 - (d.year - 1) / 100 + (d.year - 1) / 400 +
    (List.range (d.month - 1)).foldl (fun acc i => acc + daysInMonth d.year (i + 1)) 0 +
    d.day

/-- The fixed reference date `pd.to_datetime('2025-06-27')` in `transform_data`. -/
def refDate : Date := ⟨2025, 6, 27⟩

/-- Chronologically later of two dates (`groupby(...).agg('max')` step). -/
def maxDate (a b : Date) : Date :=
  if toDays a < toDays b then b else a

/-- Maximum of a list of dates; the empty case is never reached because
groups are nonempty by construction. -/
def maxDateList : List Date → Date
  | [] => ⟨1970, 1, 1⟩
  | d :: ds => ds.foldl maxDate d

/-- Lowercasing of a string, character by character; models the pandas
`Series.str.lower()` call on the ASCII data this pipeline handles. -/
def strLower (s : String) : String :=
  ⟨s.data.map Char.toLower⟩

/-- A regex `\w` character: letter, digit or underscore. -/
def isWordChar (c : Char) : Bool :=
  c.isAlphanum || c == '_'

/-- A character of the class `[\w\.-]`: word character, dot or hyphen. -/
def isWddChar (c : Char) : Bool :=
  isWordChar c || c == '.' || c == '-'

/-- Split a character list at its first `@`, returning the parts before and
after; `none` when no `@` occurs. -/
def splitAtSign : List Char → Option (List Char × List Char)
  | [] => none
  | '@' :: rest => some ([], rest)
  | c :: rest => (splitAtSign rest).map (fun pr => (c :: pr.1, pr.2))

/-- The domain side of the pattern: `[\w\.-]+\.\w+`.  The trailing `\w+` run
contains no dot, so the matching dot is the last dot; we peel the maximal
word-character suffix off the reversed list and demand a dot and a nonempty
`[\w\.-]+` run before it. -/
def domainOk (r : List Char) : Bool :=
  let rr := r.reverse
  let b := rr.takeWhile isWordChar
  let rest := rr.drop b.length
  (!b.isEmpty) &&
    (match rest with
     | '.' :: a => (!a.isEmpty) && a.all isWddChar
     | _ => false)

/-- Full match of `^[\w\.-]+@[\w\.-]+\.\w+$` (the filter on line 59 of
`data_pipeline.py`): the class `[\w\.-]` never matches `@`, so a match
splits the string at its unique `@`. -/
def emailOk (s : String) : Bool :=
  match splitAtSign s.toList with
  | none => false
  | some (l, r) => (!l.isEmpty) && l.all isWddChar && domainOk r

/-- A raw customer record (schema of `generate_mock_customers`). -/
structure Customer where
  customer_id : String
  first_name : String
  last_name : String
  email : String
  city : String
  join_date : DateVal
deriving DecidableEq

/-- A cleaned customer record: the email normalized, the join date parsed. -/
structure CCustomer where
  customer_id : String
  first_name : String
  last_name : String
  email : String
  city : String
  join_date : Date
deriving DecidableEq

/-- A cleaned customer viewed again as a raw record (its date column now
holds datetimes), as when `clean_customer_data` is re-run on its output. -/
def CCustomer.toRaw (c : CCustomer) : Customer :=
  ⟨c.customer_id, c.first_name, c.last_name, c.email, c.city, .dt c.join_date⟩

/-- `df.drop_duplicates(subset='email', keep='first')` (line 55): keep a row
when its raw email cell has not been seen earlier. -/
def dedupAux (seen : List String) : List Customer → List Customer
  | [] => []
  | c :: rest =>
    if c.email ∈ seen then dedupAux seen rest
    else c :: dedupAux (c.email :: seen) rest

/-- Email deduplication as called in `clean_customer_data`. -/
def dedupByEmail (df : List Customer) : List Customer :=
  dedupAux [] df

/-- All-or-nothing traversal of a list under a fallible per-element map;
models applying a column conversion that can raise. -/
def traverseOpt (f : α → Option β) : List α → Option (List β)
  | [] => some []
  | a :: l => (f a).bind (fun b => (traverseOpt f l).map (fun bs => b :: bs))

/-- The row-filtering stages of `clean_customer_data` (lines 55-59):
deduplicate on the raw email, lowercase every email, keep rows matching the
address pattern. -/
def customerStage (df : List Customer) : List Customer :=
  ((dedupByEmail df).map (fun c => { c with email := strLower c.email })).filter
    (fun c => emailOk c.email)

/-- Parse the `join_date` cell of one retained row (line 62). -/
def parseCustomer (c : Customer) : Option CCustomer :=
  (dvParse c.join_date).map (fun d =>
    ⟨c.customer_id, c.first_name, c.last_name, c.email, c.city, d⟩)

/-- `clean_customer_data` (lines 52-64): filter and normalize, then convert
the `join_date` column, aborting the run on any unparseable retained date. -/
def clean_customer_data (df : List Customer) : Option (List CCustomer) :=
  traverseOpt parseCustomer (customerStage df)

/-- A raw purchase record (schema of `generate_mock_purchases`); `price` in
cents. -/
structure Purchase where
  purchase_id : String
  customer_id : String
  product : String
  quantity : Int
  price : Int
  store_id : String
  purchase_date : DateVal
deriving DecidableEq

/-- A cleaned purchase record, with the derived `total_amount` column (cents)
and the parsed date. -/
structure CPurchase where
  purchase_id : String
  customer_id : String
  product : String
  quantity : Int
  price : Int
  store_id : String
  purchase_date : Date
  total_amount : Int
deriving DecidableEq

/-- The filter `df[(df['quantity'] > 0) & (df['price'] > 0)]` (line 69). -/
def purchaseStage (df : List Purchase) : List Purchase :=
  df.filter (fun p => decide (0 < p.quantity) && decide (0 < p.price))

/-- Parse the `purchase_date` cell of one retained row and derive
`total_amount = quantity * price` (lines 72-75). -/
def parsePurchase (p : Purchase) : Option CPurchase :=
  (dvParse p.purchase_date).map (fun d =>
    ⟨p.purchase_id, p.customer_id, p.product, p.quantity, p.price, p.store_id, d,
      p.quantity * p.price⟩)

/-- `clean_purchase_data` (lines 66-77). -/
def clean_purchase_data (df : List Purchase) : Option (List CPurchase) :=
  traverseOpt parsePurchase (purchaseStage df)

/-- A row of `purchases_df.merge(customers_df, on='customer_id', how='left')`
(line 82): the purchase columns plus the matched customer columns, which are
null when no customer matches. -/
structure MergedRow where
  purchase : CPurchase
  cust : Option CCustomer
deriving DecidableEq

/-- The merged rows contributed by one purchase in the left join: one row
per matching customer, or a single row with null customer columns when no
customer matches. -/
def mergeOne (customers_df : List CCustomer) (p : CPurchase) : List MergedRow :=
  let ms := customers_df.filter (fun c => decide (c.customer_id = p.customer_id))
  if ms.isEmpty then [⟨p, none⟩] else ms.map (fun c => ⟨p, some c⟩)

/-- The left join of line 82: every purchase row is kept; a purchase with
several matching customer rows is replicated per match; a purchase with no
match keeps null customer columns. -/
def mergeLeft (customers_df : List CCustomer) (purchases_df : List CPurchase) :
    List MergedRow :=
  purchases_df.flatMap (mergeOne customers_df)

/-- First-occurrence deduplication of the grouping keys. -/
def dedupKeysAux (seen : List String) : List String → List String
  | [] => []
  | k :: rest =>
    if k ∈ seen then dedupKeysAux seen rest
    else k :: dedupKeysAux (k :: seen) rest

/-- The distinct `customer_id` keys of the merged rows, one group each. -/
def dedupKeys (ks : List String) : List String :=
  dedupKeysAux [] ks

/-- The rows of one `groupby('customer_id')` group. -/
def groupRows (merged : List MergedRow) (k : String) : List MergedRow :=
  merged.filter (fun r => decide (r.purchase.customer_id = k))

/-- One row of the aggregation of lines 85-91, before the join-date merge. -/
structure GroupAgg where
  key : String
  spent : Int
  cnt : Nat
  lastPurchase : Date
  city : Option String
deriving DecidableEq

/-- The `agg` of lines 85-91 for one group: sum and count of `total_amount`
(no cell of that column is null, so the count is the group size), maximum
`purchase_date`, and `'first'` of `city`, which in pandas is the first
non-null value of the group. -/
def aggGroup (merged : List MergedRow) (k : String) : GroupAgg :=
  let g := groupRows merged k
  ⟨k, (g.map (fun r => r.purchase.total_amount)).sum, g.length,
    maxDateList (g.map (fun r => r.purchase.purchase_date)),
    ((g.filterMap (fun r => r.cust)).head?).map (fun c => c.city)⟩

/-- A row of the final `customer_summary` table. -/
structure SummaryRow where
  customer_id : String
  total_spent : Int
  purchase_count : Nat
  last_purchase : Date
  city : Option String
  join_date : Date
  tenure_days : Int
deriving DecidableEq

/-- `transform_data` (lines 79-100): left-join purchases to customers, group
by `customer_id` and aggregate, then attach `join_date` by the pandas
default inner merge with the cleaned customers (line 94) and derive
`tenure_days` as the whole-day difference to the fixed reference date
(line 98). -/
def transform_data (customers_df : List CCustomer) (purchases_df : List CPurchase) :
    List SummaryRow :=
  let merged := mergeLeft customers_df purchases_df
  let keys := dedupKeys (merged.map (fun r => r.purchase.customer_id))
  (keys.map (aggGroup merged)).flatMap (fun t =>
    (customers_df.filter (fun c => decide (c.customer_id = t.key))).map (fun c =>
      ⟨t.key, t.spent, t.cnt, t.lastPurchase, t.city, c.join_date,
        (toDays refDate : Int) - (toDays c.join_date : Int)⟩))

namespace Pipeline

/-- `main` (lines 106-125), with the out-of-scope mock generation replaced by
the two input sequences: clean both tables, then transform; a date-parse
failure in either cleaner aborts the run (`none`) before anything is saved. -/
def main (customers : List Customer) (purchases : List Purchase) :
    Option (List CCustomer × List CPurchase × List SummaryRow) :=
  match clean_customer_data customers with
  | none => none
  | some cleaned_customers =>
    match clean_purchase_data purchases with
    | none => none
    | some cleaned_purchases =>
      some (cleaned_customers, cleaned_purchases,
        transform_data cleaned_customers cleaned_purchases)

/-- The files a run writes (`save_data` calls, lines 119-121): all three
after a successful run, none when the run aborts. -/
def outputFiles (customers : List Customer) (purchases : List Purchase) :
    List String :=
  match main customers purchases with
  | none => []
  | some _ => ["customers.csv", "purchases.csv", "customer_summary.csv"]

end Pipeline

/-! ### Helper lemmas about the building blocks -/

theorem dedupAux_sublist (seen : List String) (l : List Customer) :
    (dedupAux seen l).Sublist l := by
  induction l generalizing seen with
  | nil => simp [dedupAux]
  | cons c rest ih =>
    by_cases h : c.email ∈ seen
    · simp only [dedupAux, if_pos h]
      exact (ih seen).cons c
    · simp only [dedupAux, if_neg h]
      exact (ih (c.email :: seen)).cons₂ c

theorem mem_of_mem_dedupAux {seen : List String} {l : List Customer} {c : Customer}
    (h : c ∈ dedupAux seen l) : c ∈ l :=
  (dedupAux_sublist seen l).subset h

theorem dedupAux_email_not_seen {seen : List String} {l : List Customer} {c : Customer}
    (h : c ∈ dedupAux seen l) : c.email ∉ seen := by
  induction l generalizing seen with
  | nil => simp [dedupAux] at h
  | cons a rest ih =>
    by_cases ha : a.email ∈ seen
    · rw [dedupAux, if_pos ha] at h
      exact ih h
    · rw [dedupAux, if_neg ha] at h
      rcases List.mem_cons.mp h with rfl | h
      · exact ha
      · intro hc
        exact ih h (List.mem_cons_of_mem _ hc)

theorem dedupAux_pairwise (seen : List String) (l : List Customer) :
    (dedupAux seen l).Pairwise (fun a b => a.email ≠ b.email) := by
  induction l generalizing seen with
  | nil => simp [dedupAux]
  | cons a rest ih =>
    by_cases ha : a.email ∈ seen
    · rw [dedupAux, if_pos ha]
      exact ih seen
    · rw [dedupAux, if_neg ha]
      refine List.pairwise_cons.mpr ⟨fun b hb hab => ?_, ih (a.email :: seen)⟩
      exact dedupAux_email_not_seen hb (hab ▸ List.mem_cons_self _ _)

theorem dedupAux_eq_self {seen : List String} {l : List Customer}
    (hs : ∀ c ∈ l, c.email ∉ seen)
    (hp : l.Pairwise (fun a b => a.email ≠ b.email)) : dedupAux seen l = l := by
  induction l generalizing seen with
  | nil => simp [dedupAux]
  | cons a rest ih =>
    obtain ⟨hhead, htail⟩ := List.pairwise_cons.mp hp
    rw [dedupAux, if_neg (hs a (List.mem_cons_self _ _))]
    refine congrArg (a :: ·) (ih ?_ htail)
    intro c hc
    rw [List.mem_cons]
    push_neg
    exact ⟨fun hce => (hhead c hc) hce.symm, hs c (List.mem_cons_of_mem _ hc)⟩

theorem dedupAux_find? {seen : List String} {l : List Customer} {e : String}
    (he : e ∉ seen) :
    (dedupAux seen l).find? (fun x => decide (x.email = e)) =
      l.find? (fun x => decide (x.email = e)) := by
  induction l generalizing seen with
  | nil => simp [dedupAux]
  | cons a rest ih =>
    by_cases ha : a.email ∈ seen
    · rw [dedupAux, if_pos ha]
      have hae : ¬ (decide (a.email = e) = true) := by
        simp only [decide_eq_true_eq]
        exact fun hc => he (hc ▸ ha)
      rw [List.find?_cons_of_neg (p := fun x : Customer => decide (x.email = e)) rest hae, ih he]
    · rw [dedupAux, if_neg ha]
      by_cases heq : a.email = e
      · have hp : decide (a.email = e) = true := by simp [heq]
        rw [List.find?_cons_of_pos (p := fun x : Customer => decide (x.email = e)) _ hp,
          List.find?_cons_of_pos (p := fun x : Customer => decide (x.email = e)) rest hp]
      · have he' : e ∉ a.email :: seen := by
          rw [List.mem_cons]
          push_neg
          exact ⟨fun hc => heq hc.symm, he⟩
        have hn : ¬ (decide (a.email = e) = true) := by simp [heq]
        rw [List.find?_cons_of_neg (p := fun x : Customer => decide (x.email = e)) _ hn,
          List.find?_cons_of_neg (p := fun x : Customer => decide (x.email = e)) rest hn]
        exact ih he'

theorem mem_of_mem_dedupKeysAux {seen l : List String} {k : String}
    (h : k ∈ dedupKeysAux seen l) : k ∈ l := by
  induction l generalizing seen with
  | nil => simp [dedupKeysAux] at h
  | cons a rest ih =>
    by_cases ha : a ∈ seen
    · rw [dedupKeysAux, if_pos ha] at h
      exact List.mem_cons_of_mem _ (ih h)
    · rw [dedupKeysAux, if_neg ha] at h
      rcases List.mem_cons.mp h with rfl | h
      · exact List.mem_cons_self _ _
      · exact List.mem_cons_of_mem _ (ih h)

theorem mem_dedupKeysAux_of_mem {seen l : List String} {k : String}
    (hk : k ∈ l) (hs : k ∉ seen) : k ∈ dedupKeysAux seen l := by
  induction l generalizing seen with
  | nil => simp at hk
  | cons a rest ih =>
    by_cases ha : a ∈ seen
    · rw [dedupKeysAux, if_pos ha]
      rcases List.mem_cons.mp hk with rfl | hk
      · exact absurd ha hs
      · exact ih hk hs
    · rw [dedupKeysAux, if_neg ha]
      rcases List.mem_cons.mp hk with rfl | hk
      · exact List.mem_cons_self _ _
      · by_cases hke : k = a
        · exact hke ▸ List.mem_cons_self _ _
        · refine List.mem_cons_of_mem _ (ih hk ?_)
          rw [List.mem_cons]
          push_neg
          exact ⟨hke, hs⟩

theorem dedupKeysAux_not_seen {seen l : List String} {k : String}
    (h : k ∈ dedupKeysAux seen l) : k ∉ seen := by
  induction l generalizing seen with
  | nil => simp [dedupKeysAux] at h
  | cons a rest ih =>
    by_cases ha : a ∈ seen
    · rw [dedupKeysAux, if_pos ha] at h
      exact ih h
    · rw [dedupKeysAux, if_neg ha] at h
      rcases List.mem_cons.mp h with rfl | h
      · exact ha
      · intro hc
        exact ih h (List.mem_cons_of_mem _ hc)

theorem dedupKeysAux_pairwise (seen l : List String) :
    (dedupKeysAux seen l).Pairwise (· ≠ ·) := by
  induction l generalizing seen with
  | nil => simp [dedupKeysAux]
  | cons a rest ih =>
    by_cases ha : a ∈ seen
    · rw [dedupKeysAux, if_pos ha]
      exact ih seen
    · rw [dedupKeysAux, if_neg ha]
      refine List.pairwise_cons.mpr ⟨fun b hb hab => ?_, ih (a :: seen)⟩
      exact dedupKeysAux_not_seen hb (hab ▸ List.mem_cons_self _ _)

theorem mem_dedupKeys {l : List String} {k : String} :
    k ∈ dedupKeys l ↔ k ∈ l :=
  ⟨mem_of_mem_dedupKeysAux, fun h => mem_dedupKeysAux_of_mem h (List.not_mem_nil k)⟩

theorem traverseOpt_mem {α β : Type} {f : α → Option β} {l : List α} {l' : List β}
    (h : traverseOpt f l = some l') : ∀ b ∈ l', ∃ a ∈ l, f a = some b := by
  induction l generalizing l' with
  | nil =>
    simp only [traverseOpt, Option.some.injEq] at h
    subst h
    simp
  | cons a t ih =>
    rw [traverseOpt, Option.bind_eq_some] at h
    obtain ⟨b0, hfa, hmap⟩ := h
    rw [Option.map_eq_some'] at hmap
    obtain ⟨bs, ht, rfl⟩ := hmap
    intro b hb
    rcases List.mem_cons.mp hb with rfl | hb
    · exact ⟨a, List.mem_cons_self _ _, hfa⟩
    · obtain ⟨a', ha', hfa'⟩ := ih ht b hb
      exact ⟨a', List.mem_cons_of_mem _ ha', hfa'⟩

theorem traverseOpt_map_eq {α β γ : Type} {f : α → Option β} {g : β → γ} {gr : α → γ}
    (hf : ∀ a b, f a = some b → g b = gr a) {l : List α} {l' : List β}
    (h : traverseOpt f l = some l') : l'.map g = l.map gr := by
  induction l generalizing l' with
  | nil =>
    simp only [traverseOpt, Option.some.injEq] at h
    subst h
    simp
  | cons a t ih =>
    rw [traverseOpt, Option.bind_eq_some] at h
    obtain ⟨b0, hfa, hmap⟩ := h
    rw [Option.map_eq_some'] at hmap
    obtain ⟨bs, ht, rfl⟩ := hmap
    simp only [List.map_cons]
    rw [hf a b0 hfa, ih ht]

theorem traverseOpt_none {α β : Type} {f : α → Option β} {l : List α} {a : α}
    (ha : a ∈ l) (hf : f a = none) : traverseOpt f l = none := by
  induction l with
  | nil => simp at ha
  | cons b t ih =>
    rcases List.mem_cons.mp ha with rfl | ha
    · simp [traverseOpt, hf]
    · rw [traverseOpt, ih ha]
      cases f b <;> simp

theorem map_eq_self_of_fixed {α : Type} {l : List α} {f : α → α}
    (h : ∀ a ∈ l, f a = a) : l.map f = l := by
  induction l with
  | nil => rfl
  | cons a t ih =>
    rw [List.map_cons, h a (List.mem_cons_self _ _), ih fun b hb => h b (List.mem_cons_of_mem _ hb)]

theorem toLower_toLower (c : Char) : c.toLower.toLower = c.toLower := by
  unfold Char.toLower
  by_cases h : c.toNat ≥ 65 ∧ c.toNat ≤ 90
  · rw [if_pos h]
    obtain ⟨h1, h2⟩ := h
    interval_cases h3 : c.toNat <;> decide
  · rw [if_neg h, if_neg h]

theorem strLower_strLower (s : String) : strLower (strLower s) = strLower s := by
  unfold strLower
  simp only [List.map_map]
  exact congrArg String.mk (List.map_congr_left fun a _ => toLower_toLower a)

theorem toDays_le_maxDate_left (a b : Date) : toDays a ≤ toDays (maxDate a b) := by
  unfold maxDate
  split <;> omega

theorem toDays_le_maxDate_right (a b : Date) : toDays b ≤ toDays (maxDate a b) := by
  unfold maxDate
  split <;> omega

theorem maxDate_cases (a b : Date) : maxDate a b = a ∨ maxDate a b = b := by
  unfold maxDate
  split
  · exact Or.inr rfl
  · exact Or.inl rfl

theorem foldl_maxDate_mem (ds : List Date) (init : Date) :
    ds.foldl maxDate init = init ∨ ds.foldl maxDate init ∈ ds := by
  induction ds generalizing init with
  | nil => exact Or.inl rfl
  | cons d t ih =>
    rw [List.foldl_cons]
    rcases ih (maxDate init d) with h | h
    · rcases maxDate_cases init d with hm | hm
      · exact Or.inl (h.trans hm)
      · refine Or.inr ?_
        rw [h, hm]
        exact List.mem_cons_self _ _
    · exact Or.inr (List.mem_cons_of_mem _ h)

theorem foldl_maxDate_le_init (ds : List Date) (init : Date) :
    toDays init ≤ toDays (ds.foldl maxDate init) := by
  induction ds generalizing init with
  | nil => exact le_refl _
  | cons d t ih =>
    rw [List.foldl_cons]
    exact (toDays_le_maxDate_left init d).trans (ih (maxDate init d))

theorem foldl_maxDate_le (ds : List Date) (init : Date) :
    ∀ x ∈ ds, toDays x ≤ toDays (ds.foldl maxDate init) := by
  induction ds generalizing init with
  | nil => simp
  | cons d t ih =>
    intro x hx
    rw [List.foldl_cons]
    rcases List.mem_cons.mp hx with rfl | hx
    · exact (toDays_le_maxDate_right init x).trans (foldl_maxDate_le_init t (maxDate init x))
    · exact ih (maxDate init d) x hx

theorem maxDateList_mem {l : List Date} (h : l ≠ []) : maxDateList l ∈ l := by
  cases l with
  | nil => exact absurd rfl h
  | cons d ds =>
    rw [maxDateList]
    rcases foldl_maxDate_mem ds d with h1 | h1
    · rw [h1]
      exact List.mem_cons_self _ _
    · exact List.mem_cons_of_mem _ h1

theorem maxDateList_le {l : List Date} :
    ∀ x ∈ l, toDays x ≤ toDays (maxDateList l) := by
  cases l with
  | nil => simp
  | cons d ds =>
    intro x hx
    rw [maxDateList]
    rcases List.mem_cons.mp hx with rfl | hx
    · exact foldl_maxDate_le_init ds x
    · exact foldl_maxDate_le ds d x hx

/-! ### Facts about the customer cleaning stages -/

theorem mem_customerStage {l : List Customer} {c : Customer} (h : c ∈ customerStage l) :
    emailOk c.email = true ∧ ∃ c0 ∈ l, c.email = strLower c0.email := by
  unfold customerStage at h
  obtain ⟨hmem, hok⟩ := List.mem_filter.mp h
  obtain ⟨c1, hc1, rfl⟩ := List.mem_map.mp hmem
  exact ⟨hok, c1, mem_of_mem_dedupAux hc1, rfl⟩

theorem customerStage_email_fixed {l : List Customer} {c : Customer}
    (h : c ∈ customerStage l) : strLower c.email = c.email := by
  obtain ⟨-, c0, -, he⟩ := mem_customerStage h
  rw [he, strLower_strLower]

theorem customerStage_pairwise {l : List Customer}
    (H : ∀ c1 ∈ l, ∀ c2 ∈ l, strLower c1.email = strLower c2.email → c1.email = c2.email) :
    (customerStage l).Pairwise (fun a b => a.email ≠ b.email) := by
  unfold customerStage
  refine List.Pairwise.sublist (List.filter_sublist _) ?_
  rw [List.pairwise_map]
  refine List.Pairwise.imp_of_mem ?_ (dedupAux_pairwise [] l)
  intro a b ha hb hne hlow
  exact hne (H a (mem_of_mem_dedupAux ha) b (mem_of_mem_dedupAux hb) hlow)

theorem clean_emails {l : List Customer} {out : List CCustomer}
    (h : clean_customer_data l = some out) :
    out.map (fun r => r.email) = (customerStage l).map (fun c => c.email) := by
  refine traverseOpt_map_eq ?_ h
  intro a b hab
  unfold parseCustomer at hab
  rw [Option.map_eq_some'] at hab
  obtain ⟨d, -, rfl⟩ := hab
  rfl

theorem clean_ids {l : List Customer} {out : List CCustomer}
    (h : clean_customer_data l = some out) :
    out.map (fun r => r.customer_id) = (customerStage l).map (fun c => c.customer_id) := by
  refine traverseOpt_map_eq ?_ h
  intro a b hab
  unfold parseCustomer at hab
  rw [Option.map_eq_some'] at hab
  obtain ⟨d, -, rfl⟩ := hab
  rfl

theorem clean_mem_email {l : List Customer} {out : List CCustomer}
    (h : clean_customer_data l = some out) :
    ∀ r ∈ out, emailOk r.email = true ∧ strLower r.email = r.email ∧
      ∃ c0 ∈ l, r.email = strLower c0.email := by
  intro r hr
  obtain ⟨a, ha, hab⟩ := traverseOpt_mem h r hr
  unfold parseCustomer at hab
  rw [Option.map_eq_some'] at hab
  obtain ⟨d, -, rfl⟩ := hab
  obtain ⟨h1, c0, hc0, he0⟩ := mem_customerStage ha
  exact ⟨h1, customerStage_email_fixed ha, c0, hc0, he0⟩

theorem clean_pairwise_emails {l : List Customer} {out : List CCustomer}
    (H : ∀ c1 ∈ l, ∀ c2 ∈ l, strLower c1.email = strLower c2.email → c1.email = c2.email)
    (h : clean_customer_data l = some out) :
    out.Pairwise (fun a b => a.email ≠ b.email) := by
  have hmap := clean_emails h
  have h1 : ((customerStage l).map (fun c => c.email)).Pairwise (· ≠ ·) :=
    List.pairwise_map.mpr (customerStage_pairwise H)
  rw [← hmap] at h1
  exact List.pairwise_map.mp h1

theorem clean_pairwise_ids {l : List Customer} {out : List CCustomer}
    (hl : l.Pairwise (fun a b => a.customer_id ≠ b.customer_id))
    (h : clean_customer_data l = some out) :
    out.Pairwise (fun a b => a.customer_id ≠ b.customer_id) := by
  have hmap := clean_ids h
  have hsub : ((customerStage l).map (fun c => c.customer_id)).Sublist
      (l.map (fun c => c.customer_id)) := by
    have h1 : ((customerStage l).map (fun c => c.customer_id)).Sublist
        (((dedupByEmail l).map (fun c => { c with email := strLower c.email })).map
          (fun c => c.customer_id)) :=
      List.Sublist.map _ (List.filter_sublist _)
    have h2 : (((dedupByEmail l).map (fun c => { c with email := strLower c.email })).map
          (fun c => c.customer_id)) = (dedupByEmail l).map (fun c => c.customer_id) := by
      rw [List.map_map]
      rfl
    have h3 : ((dedupByEmail l).map (fun c => c.customer_id)).Sublist
        (l.map (fun c => c.customer_id)) := List.Sublist.map _ (dedupAux_sublist [] l)
    exact (h2 ▸ h1).trans h3
  have h2 : ((customerStage l).map (fun c => c.customer_id)).Pairwise (· ≠ ·) :=
    List.Pairwise.sublist hsub (List.pairwise_map.mpr hl)
  rw [← hmap] at h2
  exact List.pairwise_map.mp h2

/-! ### Facts about the purchase cleaning -/

theorem clean_purchase_mem {ps : List Purchase} {cp : List CPurchase}
    (h : clean_purchase_data ps = some cp) :
    ∀ q ∈ cp, 0 < q.quantity ∧ 0 < q.price ∧ q.total_amount = q.quantity * q.price := by
  intro q hq
  obtain ⟨a, ha, hab⟩ := traverseOpt_mem h q hq
  have ha' : a ∈ ps.filter (fun p => decide (0 < p.quantity) && decide (0 < p.price)) := ha
  obtain ⟨-, hfil⟩ := List.mem_filter.mp ha'
  rw [Bool.and_eq_true, decide_eq_true_eq, decide_eq_true_eq] at hfil
  unfold parsePurchase at hab
  rw [Option.map_eq_some'] at hab
  obtain ⟨d, -, rfl⟩ := hab
  exact ⟨hfil.1, hfil.2, rfl⟩

/-! ### Facts about the join and aggregation -/

theorem mem_mergeOne_purchase {cc : List CCustomer} {p : CPurchase} {r : MergedRow}
    (h : r ∈ mergeOne cc p) : r.purchase = p := by
  simp only [mergeOne] at h
  by_cases hm : (cc.filter (fun c => decide (c.customer_id = p.customer_id))).isEmpty
  · rw [if_pos hm] at h
    rw [List.mem_singleton] at h
    rw [h]
  · rw [if_neg hm] at h
    rw [List.mem_map] at h
    obtain ⟨c, -, rfl⟩ := h
    rfl

theorem mem_mergeLeft_purchase {cc : List CCustomer} {cp : List CPurchase} {r : MergedRow}
    (h : r ∈ mergeLeft cc cp) : r.purchase ∈ cp := by
  unfold mergeLeft at h
  rw [List.mem_flatMap] at h
  obtain ⟨p, hp, hr⟩ := h
  rw [mem_mergeOne_purchase hr]
  exact hp

theorem filter_eq_find_toList {cc : List CCustomer}
    (h : cc.Pairwise (fun a b => a.customer_id ≠ b.customer_id)) (k : String) :
    cc.filter (fun c => decide (c.customer_id = k)) =
      (cc.find? (fun c => decide (c.customer_id = k))).toList := by
  induction cc with
  | nil => rfl
  | cons c rest ih =>
    obtain ⟨hhead, htail⟩ := List.pairwise_cons.mp h
    by_cases hck : c.customer_id = k
    · have hp : decide (c.customer_id = k) = true := by simp [hck]
      rw [List.filter_cons, if_pos hp,
        List.find?_cons_of_pos (p := fun c : CCustomer => decide (c.customer_id = k)) rest hp]
      have hrest : rest.filter (fun c => decide (c.customer_id = k)) = [] := by
        rw [List.filter_eq_nil_iff]
        intro a ha
        simp only [decide_eq_true_eq]
        exact fun hak => hhead a ha (by rw [hck, hak])
      rw [hrest]
      rfl
    · have hn : ¬ (decide (c.customer_id = k) = true) := by simp [hck]
      rw [List.filter_cons, if_neg hn,
        List.find?_cons_of_neg (p := fun c : CCustomer => decide (c.customer_id = k)) rest hn]
      exact ih htail

theorem mergeOne_eq {cc : List CCustomer}
    (h : cc.Pairwise (fun a b => a.customer_id ≠ b.customer_id)) (p : CPurchase) :
    mergeOne cc p =
      [⟨p, cc.find? (fun c => decide (c.customer_id = p.customer_id))⟩] := by
  simp only [mergeOne]
  have hf := filter_eq_find_toList h p.customer_id
  cases hfind : cc.find? (fun c => decide (c.customer_id = p.customer_id)) with
  | none =>
    rw [hfind] at hf
    simp only [Option.toList] at hf
    simp [hf]
  | some c =>
    rw [hfind] at hf
    simp only [Option.toList] at hf
    simp [hf]

theorem mergeLeft_eq {cc : List CCustomer} {cp : List CPurchase}
    (h : cc.Pairwise (fun a b => a.customer_id ≠ b.customer_id)) :
    mergeLeft cc cp = cp.map (fun p =>
      (⟨p, cc.find? (fun c => decide (c.customer_id = p.customer_id))⟩ : MergedRow)) := by
  unfold mergeLeft
  induction cp with
  | nil => rfl
  | cons p t ih =>
    rw [List.flatMap_cons, List.map_cons, ih, mergeOne_eq h p]
    rfl

theorem groupRows_eq {cc : List CCustomer} {cp : List CPurchase}
    (h : cc.Pairwise (fun a b => a.customer_id ≠ b.customer_id)) (k : String) :
    groupRows (mergeLeft cc cp) k =
      (cp.filter (fun p => decide (p.customer_id = k))).map
        (fun p => (⟨p, cc.find? (fun c => decide (c.customer_id = p.customer_id))⟩ : MergedRow)) := by
  unfold groupRows
  rw [mergeLeft_eq h, List.filter_map]
  rfl

theorem groupRows_ne_nil {merged : List MergedRow} {k : String}
    (h : k ∈ merged.map (fun x => x.purchase.customer_id)) : groupRows merged k ≠ [] := by
  rw [List.mem_map] at h
  obtain ⟨row, hrow, hid⟩ := h
  intro hnil
  have hm : row ∈ groupRows merged k := List.mem_filter.mpr ⟨hrow, by simp [hid]⟩
  rw [hnil] at hm
  simp at hm

theorem mergeLeft_ids {cc : List CCustomer} {cp : List CPurchase}
    (h : cc.Pairwise (fun a b => a.customer_id ≠ b.customer_id)) :
    (mergeLeft cc cp).map (fun x => x.purchase.customer_id) =
      cp.map (fun p => p.customer_id) := by
  rw [mergeLeft_eq h, List.map_map]
  rfl

theorem agg_spent_eq {cc : List CCustomer} {cp : List CPurchase}
    (h : cc.Pairwise (fun a b => a.customer_id ≠ b.customer_id)) (k : String) :
    (aggGroup (mergeLeft cc cp) k).spent =
      ((cp.filter (fun p => decide (p.customer_id = k))).map (fun p => p.total_amount)).sum := by
  show ((groupRows (mergeLeft cc cp) k).map (fun r => r.purchase.total_amount)).sum = _
  rw [groupRows_eq h, List.map_map]
  rfl

theorem agg_cnt_eq {cc : List CCustomer} {cp : List CPurchase}
    (h : cc.Pairwise (fun a b => a.customer_id ≠ b.customer_id)) (k : String) :
    (aggGroup (mergeLeft cc cp) k).cnt =
      (cp.filter (fun p => decide (p.customer_id = k))).length := by
  show (groupRows (mergeLeft cc cp) k).length = _
  rw [groupRows_eq h, List.length_map]

theorem agg_last_eq {cc : List CCustomer} {cp : List CPurchase}
    (h : cc.Pairwise (fun a b => a.customer_id ≠ b.customer_id)) (k : String) :
    (aggGroup (mergeLeft cc cp) k).lastPurchase =
      maxDateList ((cp.filter (fun p => decide (p.customer_id = k))).map
        (fun p => p.purchase_date)) := by
  show maxDateList ((groupRows (mergeLeft cc cp) k).map (fun r => r.purchase.purchase_date)) = _
  rw [groupRows_eq h, List.map_map]
  rfl

theorem mem_transform {cc : List CCustomer} {cp : List CPurchase} {r : SummaryRow}
    (h : r ∈ transform_data cc cp) :
    ∃ k, k ∈ dedupKeys ((mergeLeft cc cp).map (fun x => x.purchase.customer_id)) ∧
      ∃ c ∈ cc, c.customer_id = k ∧
        r = ⟨k, (aggGroup (mergeLeft cc cp) k).spent, (aggGroup (mergeLeft cc cp) k).cnt,
          (aggGroup (mergeLeft cc cp) k).lastPurchase, (aggGroup (mergeLeft cc cp) k).city,
          c.join_date, (toDays refDate : Int) - (toDays c.join_date : Int)⟩ := by
  simp only [transform_data, List.mem_flatMap, List.mem_map] at h
  obtain ⟨t, ⟨k, hk, rfl⟩, hr⟩ := h
  obtain ⟨c, hc, rfl⟩ := hr
  obtain ⟨hcc, hck⟩ := List.mem_filter.mp hc
  rw [decide_eq_true_eq] at hck
  exact ⟨k, hk, c, hcc, hck, rfl⟩

theorem flatMap_keyFilter {cc : List CCustomer}
    (h : cc.Pairwise (fun a b => a.customer_id ≠ b.customer_id)) (ks : List String) :
    ks.flatMap (fun k => (cc.filter (fun c => decide (c.customer_id = k))).map
        (fun _ => k)) =
      ks.filter (fun k => (cc.find? (fun c => decide (c.customer_id = k))).isSome) := by
  induction ks with
  | nil => rfl
  | cons k t ih =>
    rw [List.flatMap_cons, List.filter_cons, ih, filter_eq_find_toList h k]
    cases hfind : cc.find? (fun c => decide (c.customer_id = k)) with
    | none => simp [hfind]
    | some c => simp [hfind]

theorem transform_ids {cc : List CCustomer} {cp : List CPurchase}
    (h : cc.Pairwise (fun a b => a.customer_id ≠ b.customer_id)) :
    (transform_data cc cp).map (fun r => r.customer_id) =
      (dedupKeys (cp.map (fun p => p.customer_id))).filter
        (fun k => (cc.find? (fun c => decide (c.customer_id = k))).isSome) := by
  simp only [transform_data]
  rw [List.map_flatMap, List.flatMap_map, mergeLeft_ids h]
  have hfun : (fun k => ((cc.filter
        (fun c => decide (c.customer_id = (aggGroup (mergeLeft cc cp) k).key))).map
          (fun c => (⟨(aggGroup (mergeLeft cc cp) k).key, (aggGroup (mergeLeft cc cp) k).spent,
            (aggGroup (mergeLeft cc cp) k).cnt, (aggGroup (mergeLeft cc cp) k).lastPurchase,
            (aggGroup (mergeLeft cc cp) k).city, c.join_date,
            (toDays refDate : Int) - (toDays c.join_date : Int)⟩ : SummaryRow))).map
              (fun r => r.customer_id)) =
      (fun k => (cc.filter (fun c => decide (c.customer_id = k))).map
        (fun _ => k)) := by
    funext k
    rw [List.map_map]
    rfl
  rw [hfun, flatMap_keyFilter h]

/-! ### Re-running the customer cleaner on its own output -/

theorem traverseOpt_toRaw (out : List CCustomer) :
    traverseOpt parseCustomer (out.map CCustomer.toRaw) = some out := by
  induction out with
  | nil => rfl
  | cons c t ih =>
    rw [List.map_cons]
    show (parseCustomer (CCustomer.toRaw c)).bind
      (fun b => (traverseOpt parseCustomer (t.map CCustomer.toRaw)).map (fun bs => b :: bs)) =
        some (c :: t)
    have h1 : parseCustomer (CCustomer.toRaw c) = some c := rfl
    rw [h1, ih]
    rfl

theorem customerStage_toRaw {out : List CCustomer}
    (hp : out.Pairwise (fun a b => a.email ≠ b.email))
    (hfix : ∀ r ∈ out, strLower r.email = r.email)
    (hok : ∀ r ∈ out, emailOk r.email = true) :
    customerStage (out.map CCustomer.toRaw) = out.map CCustomer.toRaw := by
  unfold customerStage dedupByEmail
  have hd : dedupAux [] (out.map CCustomer.toRaw) = out.map CCustomer.toRaw := by
    refine dedupAux_eq_self (fun c _ => List.not_mem_nil _) ?_
    rw [List.pairwise_map]
    exact hp
  rw [hd]
  have hm : (out.map CCustomer.toRaw).map (fun c => { c with email := strLower c.email }) =
      out.map CCustomer.toRaw := by
    refine map_eq_self_of_fixed ?_
    intro a ha
    rw [List.mem_map] at ha
    obtain ⟨r, hr, rfl⟩ := ha
    have hf := hfix r hr
    simp [CCustomer.toRaw] at hf ⊢
    exact hf
  rw [hm, List.filter_eq_self]
  intro a ha
  rw [List.mem_map] at ha
  obtain ⟨r, hr, rfl⟩ := ha
  exact hok r hr

/-! ### The claims -/

/-- C1 (amended): deduplication in `clean_customer_data` is by exact
(case-sensitive) equality of the raw email, keeping the first occurrence in
input order: the deduplicated list has pairwise distinct raw emails and, for
every email value, retains exactly the first record of the input carrying
it.  Records whose emails are equal only up to letter case are all
retained, so for the spec scenario the cleaned output keeps both
CUST_00001 and CUST_00002. -/
theorem C1_dedup_is_exact_first_occurrence :
    (∀ l : List Customer,
      (dedupByEmail l).Pairwise (fun a b => a.email ≠ b.email) ∧
      ∀ e : String,
        (dedupByEmail l).find? (fun x => decide (x.email = e)) =
          l.find? (fun x => decide (x.email = e))) ∧
    (clean_customer_data
        [⟨"CUST_00001", "Ann", "Lee", "A@x.com", "New York", .strv "2020-01-01"⟩,
         ⟨"CUST_00002", "Bob", "Day", "a@x.com", "Chicago", .strv "2020-01-02"⟩]).map
      (fun out => out.map (fun c => c.customer_id)) =
      some ["CUST_00001", "CUST_00002"] := by
  refine ⟨fun l => ⟨dedupAux_pairwise [] l, fun e => dedupAux_find? (List.not_mem_nil e)⟩, ?_⟩
  decide

/-- C1 counterexample: on the spec scenario (emails "A@x.com" and "a@x.com",
equal up to case), the cleaned output retains BOTH records, not only
CUST_00001: deduplication runs on the raw emails before lowercasing. -/
theorem C1_counterexample :
    clean_customer_data
        [⟨"CUST_00001", "Ann", "Lee", "A@x.com", "New York", .strv "2020-01-01"⟩,
         ⟨"CUST_00002", "Bob", "Day", "a@x.com", "Chicago", .strv "2020-01-02"⟩] =
      some [⟨"CUST_00001", "Ann", "Lee", "a@x.com", "New York", ⟨2020, 1, 1⟩⟩,
            ⟨"CUST_00002", "Bob", "Day", "a@x.com", "Chicago", ⟨2020, 1, 2⟩⟩] := by
  decide

/-- C2 (amended): every cleaned customer email matches the address pattern
and is a fixed point of lowercasing; the emails are pairwise distinct
(case-insensitively) provided no two input emails are case-insensitively
equal without being exactly equal; the customer ids are pairwise distinct
provided the input ids are.  Both provisos are necessary: see the
counterexample. -/
theorem C2_cleaned_customer_invariants :
    ∀ (l : List Customer) (out : List CCustomer),
      clean_customer_data l = some out →
      (∀ r ∈ out, emailOk r.email = true ∧ strLower r.email = r.email) ∧
      ((∀ c1 ∈ l, ∀ c2 ∈ l, strLower c1.email = strLower c2.email → c1.email = c2.email) →
        out.Pairwise (fun a b => strLower a.email ≠ strLower b.email)) ∧
      (l.Pairwise (fun a b => a.customer_id ≠ b.customer_id) →
        out.Pairwise (fun a b => a.customer_id ≠ b.customer_id)) := by
  intro l out h
  refine ⟨?_, ?_, fun hl => clean_pairwise_ids hl h⟩
  · intro r hr
    obtain ⟨h1, h2, -⟩ := clean_mem_email h r hr
    exact ⟨h1, h2⟩
  · intro H
    refine List.Pairwise.imp_of_mem ?_ (clean_pairwise_emails H h)
    intro a b ha hb hne hsl
    have hfa := (clean_mem_email h a ha).2.1
    have hfb := (clean_mem_email h b hb).2.1
    exact hne (by rw [← hfa, ← hfb, hsl])

/-- C2 counterexample: the input with emails "A@x.com" and "a@x.com" (a
legal input per the spec scenario) produces two distinct cleaned rows with
identical emails, violating case-insensitive email uniqueness. -/
theorem C2_counterexample :
    clean_customer_data
        [⟨"CUST_00001", "Ann", "Lee", "A@x.com", "New York", .strv "2020-01-01"⟩,
         ⟨"CUST_00002", "Bob", "Day", "a@x.com", "Chicago", .strv "2020-01-02"⟩] =
      some [⟨"CUST_00001", "Ann", "Lee", "a@x.com", "New York", ⟨2020, 1, 1⟩⟩,
            ⟨"CUST_00002", "Bob", "Day", "a@x.com", "Chicago", ⟨2020, 1, 2⟩⟩] ∧
    (⟨"CUST_00001", "Ann", "Lee", "a@x.com", "New York", ⟨2020, 1, 1⟩⟩ : CCustomer).email =
      (⟨"CUST_00002", "Bob", "Day", "a@x.com", "Chicago", ⟨2020, 1, 2⟩⟩ : CCustomer).email ∧
    (⟨"CUST_00001", "Ann", "Lee", "a@x.com", "New York", ⟨2020, 1, 1⟩⟩ : CCustomer) ≠
      ⟨"CUST_00002", "Bob", "Day", "a@x.com", "Chicago", ⟨2020, 1, 2⟩⟩ := by
  decide

/-- C2 witness: a concrete instantiation of the amended invariant. -/
theorem C2_witness :
    List.Pairwise (fun a b : CCustomer => strLower a.email ≠ strLower b.email)
      [⟨"CUST_00001", "Ann", "Lee", "a@x.com", "New York", ⟨2020, 1, 1⟩⟩,
       ⟨"CUST_00002", "Bob", "Day", "b@y.com", "Chicago", ⟨2020, 1, 2⟩⟩] :=
  ((C2_cleaned_customer_invariants
      [⟨"CUST_00001", "Ann", "Lee", "a@x.com", "New York", .strv "2020-01-01"⟩,
       ⟨"CUST_00002", "Bob", "Day", "b@y.com", "Chicago", .strv "2020-01-02"⟩]
      [⟨"CUST_00001", "Ann", "Lee", "a@x.com", "New York", ⟨2020, 1, 1⟩⟩,
       ⟨"CUST_00002", "Bob", "Day", "b@y.com", "Chicago", ⟨2020, 1, 2⟩⟩]
      (by decide)).2.1) (by decide)

/-- C3 (amended): re-running `clean_customer_data` on its own output yields
that output unchanged, provided that in the original input no two emails
are case-insensitively equal without being exactly equal (and the retained
dates parse).  Without that proviso a second run can drop further rows,
because the first run deduplicates before lowercasing: see the
counterexample. -/
theorem C3_clean_idempotent_without_case_collisions :
    ∀ (l : List Customer) (out : List CCustomer),
      (∀ c1 ∈ l, ∀ c2 ∈ l, strLower c1.email = strLower c2.email → c1.email = c2.email) →
      clean_customer_data l = some out →
      clean_customer_data (out.map CCustomer.toRaw) = some out := by
  intro l out H h
  have hp := clean_pairwise_emails H h
  have hfix : ∀ r ∈ out, strLower r.email = r.email :=
    fun r hr => (clean_mem_email h r hr).2.1
  have hok : ∀ r ∈ out, emailOk r.email = true :=
    fun r hr => (clean_mem_email h r hr).1
  show traverseOpt parseCustomer (customerStage (out.map CCustomer.toRaw)) = some out
  rw [customerStage_toRaw hp hfix hok, traverseOpt_toRaw]

/-- C3 counterexample: cleaning the two-record scenario input keeps both
rows (now with identical lowercased emails); cleaning that output again
drops the second row, so cleaning is not idempotent. -/
theorem C3_counterexample :
    clean_customer_data
        [⟨"CUST_00001", "Ann", "Lee", "A@x.com", "New York", .strv "2020-01-01"⟩,
         ⟨"CUST_00002", "Bob", "Day", "a@x.com", "Chicago", .strv "2020-01-02"⟩] =
      some [⟨"CUST_00001", "Ann", "Lee", "a@x.com", "New York", ⟨2020, 1, 1⟩⟩,
            ⟨"CUST_00002", "Bob", "Day", "a@x.com", "Chicago", ⟨2020, 1, 2⟩⟩] ∧
    clean_customer_data
        [⟨"CUST_00001", "Ann", "Lee", "a@x.com", "New York", .dt ⟨2020, 1, 1⟩⟩,
         ⟨"CUST_00002", "Bob", "Day", "a@x.com", "Chicago", .dt ⟨2020, 1, 2⟩⟩] =
      some [⟨"CUST_00001", "Ann", "Lee", "a@x.com", "New York", ⟨2020, 1, 1⟩⟩] ∧
    some [(⟨"CUST_00001", "Ann", "Lee", "a@x.com", "New York", ⟨2020, 1, 1⟩⟩ : CCustomer)] ≠
      some [⟨"CUST_00001", "Ann", "Lee", "a@x.com", "New York", ⟨2020, 1, 1⟩⟩,
            ⟨"CUST_00002", "Bob", "Day", "a@x.com", "Chicago", ⟨2020, 1, 2⟩⟩] := by
  decide

/-- C3 witness: a concrete instantiation of the amended idempotence. -/
theorem C3_witness :
    clean_customer_data
        (List.map CCustomer.toRaw
          [⟨"CUST_00001", "Ann", "Lee", "a@x.com", "New York", ⟨2020, 1, 1⟩⟩]) =
      some [⟨"CUST_00001", "Ann", "Lee", "a@x.com", "New York", ⟨2020, 1, 1⟩⟩] :=
  C3_clean_idempotent_without_case_collisions
    [⟨"CUST_00001", "Ann", "Lee", "a@x.com", "New York", .strv "2020-01-01"⟩]
    [⟨"CUST_00001", "Ann", "Lee", "a@x.com", "New York", ⟨2020, 1, 1⟩⟩]
    (by decide) (by decide)

/-- C4 (amended): under the data-model assumption that cleaned customer ids
are pairwise distinct, the customer summary contains exactly one row for
every customer_id present in BOTH the cleaned purchases and the cleaned
customers.  A customer_id with purchases but no matching customer record
survives the left join and the grouping but is dropped by the final merge
with the customers (pandas default inner join, line 94), so dangling
references do NOT surface in the summary: see the counterexample. -/
theorem C4_summary_one_row_per_matched_customer :
    ∀ (cc : List CCustomer) (cp : List CPurchase),
      cc.Pairwise (fun a b => a.customer_id ≠ b.customer_id) →
      ((transform_data cc cp).map (fun r => r.customer_id)).Pairwise (· ≠ ·) ∧
      ∀ k : String,
        k ∈ (transform_data cc cp).map (fun r => r.customer_id) ↔
          (k ∈ cp.map (fun p => p.customer_id) ∧ k ∈ cc.map (fun c => c.customer_id)) := by
  intro cc cp h
  rw [transform_ids h]
  constructor
  · exact List.Pairwise.sublist (List.filter_sublist _) (dedupKeysAux_pairwise [] _)
  · intro k
    rw [List.mem_filter, mem_dedupKeys]
    constructor
    · rintro ⟨h1, h2⟩
      rw [List.find?_isSome] at h2
      obtain ⟨c, hc, hck⟩ := h2
      rw [decide_eq_true_eq] at hck
      exact ⟨h1, List.mem_map.mpr ⟨c, hc, hck⟩⟩
    · rintro ⟨h1, h2⟩
      refine ⟨h1, ?_⟩
      rw [List.find?_isSome]
      obtain ⟨c, hc, hck⟩ := List.mem_map.mp h2
      exact ⟨c, hc, by simp [hck]⟩

/-- C4 counterexample: a single cleaned purchase referencing CUST_09999,
which has no customer record, yields an EMPTY summary — the dangling
reference does not surface as an unmatched row. -/
theorem C4_counterexample :
    clean_purchase_data
        [⟨"PUR_000001", "CUST_09999", "Milk", 2, 150, "Store_A", .strv "2024-03-05"⟩] =
      some [⟨"PUR_000001", "CUST_09999", "Milk", 2, 150, "Store_A", ⟨2024, 3, 5⟩, 300⟩] ∧
    transform_data []
        [⟨"PUR_000001", "CUST_09999", "Milk", 2, 150, "Store_A", ⟨2024, 3, 5⟩, 300⟩] = [] := by
  decide

/-- C4 witness: a concrete instantiation of the amended row-uniqueness. -/
theorem C4_witness :
    ((transform_data
        [⟨"C1", "Ann", "Lee", "ann@x.com", "Chicago", ⟨2020, 6, 1⟩⟩]
        [⟨"P1", "C1", "Milk", 1, 300, "S1", ⟨2024, 1, 2⟩, 300⟩]).map
      (fun r => r.customer_id)).Pairwise (· ≠ ·) :=
  (C4_summary_one_row_per_matched_customer
    [⟨"C1", "Ann", "Lee", "ann@x.com", "Chicago", ⟨2020, 6, 1⟩⟩]
    [⟨"P1", "C1", "Milk", 1, 300, "S1", ⟨2024, 1, 2⟩, 300⟩]
    (by decide)).1

/-- C5 (confirmed): under the data-model assumption that cleaned customer
ids are pairwise distinct, for every row of the customer summary,
`total_spent` is the exact sum of `total_amount` over that customer's
cleaned purchases (amounts in exact cents; the witness exercises the
$3.00 + $5.50 = $8.50 scenario). -/
theorem C5_total_spent_is_exact_sum :
    ∀ (cc : List CCustomer) (cp : List CPurchase),
      cc.Pairwise (fun a b => a.customer_id ≠ b.customer_id) →
      ∀ r ∈ transform_data cc cp,
        r.total_spent =
          ((cp.filter (fun p => decide (p.customer_id = r.customer_id))).map
            (fun p => p.total_amount)).sum := by
  intro cc cp h r hr
  obtain ⟨k, hk, c, hc, hck, rfl⟩ := mem_transform hr
  exact agg_spent_eq h k

/-- C5 witness: customer C1 with purchases of 300 and 550 cents has
total_spent 850 cents and the summary sum equals the filtered sum. -/
theorem C5_witness :
    (⟨"C1", 850, 2, ⟨2024, 2, 3⟩, some "Chicago", ⟨2020, 6, 1⟩, 1852⟩ : SummaryRow).total_spent =
      ((([⟨"P1", "C1", "Milk", 1, 300, "S1", ⟨2024, 1, 2⟩, 300⟩,
          ⟨"P2", "C1", "Bread", 1, 550, "S1", ⟨2024, 2, 3⟩, 550⟩] : List CPurchase).filter
        (fun p => decide (p.customer_id =
          (⟨"C1", 850, 2, ⟨2024, 2, 3⟩, some "Chicago", ⟨2020, 6, 1⟩,
            1852⟩ : SummaryRow).customer_id))).map
        (fun p => p.total_amount)).sum :=
  C5_total_spent_is_exact_sum
    [⟨"C1", "Ann", "Lee", "ann@x.com", "Chicago", ⟨2020, 6, 1⟩⟩]
    [⟨"P1", "C1", "Milk", 1, 300, "S1", ⟨2024, 1, 2⟩, 300⟩,
     ⟨"P2", "C1", "Bread", 1, 550, "S1", ⟨2024, 2, 3⟩, 550⟩]
    (by decide)
    ⟨"C1", 850, 2, ⟨2024, 2, 3⟩, some "Chicago", ⟨2020, 6, 1⟩, 1852⟩
    (by decide)

/-- C6 (confirmed): under the data-model assumption that cleaned customer
ids are pairwise distinct, every summary row's customer has at least one
cleaned purchase, `purchase_count` is the exact number of that customer's
cleaned purchases, and `last_purchase` is the chronological maximum of
their purchase dates (it is one of them and no purchase date is later). -/
theorem C6_purchase_count_and_last_purchase :
    ∀ (cc : List CCustomer) (cp : List CPurchase),
      cc.Pairwise (fun a b => a.customer_id ≠ b.customer_id) →
      ∀ r ∈ transform_data cc cp,
        r.purchase_count =
          (cp.filter (fun p => decide (p.customer_id = r.customer_id))).length ∧
        (∃ p ∈ cp, p.customer_id = r.customer_id ∧ p.purchase_date = r.last_purchase) ∧
        (∀ p ∈ cp, p.customer_id = r.customer_id →
          toDays p.purchase_date ≤ toDays r.last_purchase) := by
  intro cc cp h r hr
  obtain ⟨k, hk, c, hc, hck, rfl⟩ := mem_transform hr
  have hkcp : k ∈ cp.map (fun p => p.customer_id) := by
    have hm := mem_dedupKeys.mp hk
    rwa [mergeLeft_ids h] at hm
  obtain ⟨p0, hp0, hp0k⟩ := List.mem_map.mp hkcp
  have hfne : (cp.filter (fun p => decide (p.customer_id = k))) ≠ [] := by
    intro hnil
    have hmem : p0 ∈ cp.filter (fun p => decide (p.customer_id = k)) :=
      List.mem_filter.mpr ⟨hp0, by simp [hp0k]⟩
    rw [hnil] at hmem
    simp at hmem
  have hdl : ((cp.filter (fun p => decide (p.customer_id = k))).map
      (fun p => p.purchase_date)) ≠ [] := by
    rw [ne_eq, List.map_eq_nil_iff]
    exact hfne
  refine ⟨agg_cnt_eq h k, ?_, ?_⟩
  · have hmem := maxDateList_mem hdl
    rw [List.mem_map] at hmem
    obtain ⟨p, hpf, hpd⟩ := hmem
    obtain ⟨hpcp, hpk⟩ := List.mem_filter.mp hpf
    rw [decide_eq_true_eq] at hpk
    refine ⟨p, hpcp, hpk, ?_⟩
    show p.purchase_date = (aggGroup (mergeLeft cc cp) k).lastPurchase
    rw [agg_last_eq h k]
    exact hpd
  · intro p hp hpk
    show toDays p.purchase_date ≤ toDays (aggGroup (mergeLeft cc cp) k).lastPurchase
    rw [agg_last_eq h k]
    refine maxDateList_le p.purchase_date ?_
    refine List.mem_map_of_mem _ (List.mem_filter.mpr ⟨hp, ?_⟩)
    simp only [decide_eq_true_eq]
    exact hpk

/-- C6 witness: a concrete instantiation of the purchase-count equation. -/
theorem C6_witness :
    (⟨"C1", 850, 2, ⟨2024, 2, 3⟩, some "Chicago", ⟨2020, 6, 1⟩,
        1852⟩ : SummaryRow).purchase_count =
      (([⟨"P1", "C1", "Milk", 1, 300, "S1", ⟨2024, 1, 2⟩, 300⟩,
         ⟨"P2", "C1", "Bread", 1, 550, "S1", ⟨2024, 2, 3⟩, 550⟩] : List CPurchase).filter
        (fun p => decide (p.customer_id =
          (⟨"C1", 850, 2, ⟨2024, 2, 3⟩, some "Chicago", ⟨2020, 6, 1⟩,
            1852⟩ : SummaryRow).customer_id))).length :=
  (C6_purchase_count_and_last_purchase
    [⟨"C1", "Ann", "Lee", "ann@x.com", "Chicago", ⟨2020, 6, 1⟩⟩]
    [⟨"P1", "C1", "Milk", 1, 300, "S1", ⟨2024, 1, 2⟩, 300⟩,
     ⟨"P2", "C1", "Bread", 1, 550, "S1", ⟨2024, 2, 3⟩, 550⟩]
    (by decide)
    ⟨"C1", 850, 2, ⟨2024, 2, 3⟩, some "Chicago", ⟨2020, 6, 1⟩, 1852⟩
    (by decide)).1

/-- C7 (confirmed): every row of the cleaned purchases has strictly
positive quantity and price and `total_amount = quantity * price`; rows
failing the positivity filter are dropped and so never appear. -/
theorem C7_cleaned_purchase_invariant :
    ∀ (ps : List Purchase) (cp : List CPurchase),
      clean_purchase_data ps = some cp →
      ∀ q ∈ cp, 0 < q.quantity ∧ 0 < q.price ∧
        q.total_amount = q.quantity * q.price := by
  intro ps cp h
  exact clean_purchase_mem h

/-- C7 witness: a concrete cleaned purchase satisfies the invariant. -/
theorem C7_witness :
    0 < (⟨"PUR_000001", "CUST_09999", "Milk", 2, 150, "Store_A", ⟨2024, 3, 5⟩,
        300⟩ : CPurchase).quantity ∧
    0 < (⟨"PUR_000001", "CUST_09999", "Milk", 2, 150, "Store_A", ⟨2024, 3, 5⟩,
        300⟩ : CPurchase).price ∧
    (⟨"PUR_000001", "CUST_09999", "Milk", 2, 150, "Store_A", ⟨2024, 3, 5⟩,
        300⟩ : CPurchase).total_amount =
      (⟨"PUR_000001", "CUST_09999", "Milk", 2, 150, "Store_A", ⟨2024, 3, 5⟩,
        300⟩ : CPurchase).quantity *
        (⟨"PUR_000001", "CUST_09999", "Milk", 2, 150, "Store_A", ⟨2024, 3, 5⟩,
          300⟩ : CPurchase).price :=
  C7_cleaned_purchase_invariant
    [⟨"PUR_000001", "CUST_09999", "Milk", 2, 150, "Store_A", .strv "2024-03-05"⟩]
    [⟨"PUR_000001", "CUST_09999", "Milk", 2, 150, "Store_A", ⟨2024, 3, 5⟩, 300⟩]
    (by decide)
    ⟨"PUR_000001", "CUST_09999", "Milk", 2, 150, "Store_A", ⟨2024, 3, 5⟩, 300⟩
    (by decide)

/-- C8 (confirmed): every summary row's `tenure_days` is the whole-day
difference between the fixed reference date 2025-06-27 and the row's
`join_date`, and for join_date 2020-06-01 that difference is exactly
1852 days. -/
theorem C8_tenure_days :
    (∀ (cc : List CCustomer) (cp : List CPurchase), ∀ r ∈ transform_data cc cp,
      r.tenure_days = (toDays refDate : Int) - (toDays r.join_date : Int)) ∧
    (toDays (⟨2025, 6, 27⟩ : Date) : Int) - (toDays (⟨2020, 6, 1⟩ : Date) : Int) = 1852 := by
  constructor
  · intro cc cp r hr
    obtain ⟨k, hk, c, hc, hck, rfl⟩ := mem_transform hr
    rfl
  · decide

/-- C8 witness: the concrete summary row for a customer who joined on
2020-06-01 carries tenure_days = 1852 = reference minus join date. -/
theorem C8_witness :
    (⟨"C1", 850, 2, ⟨2024, 2, 3⟩, some "Chicago", ⟨2020, 6, 1⟩,
        1852⟩ : SummaryRow).tenure_days =
      (toDays refDate : Int) -
        (toDays (⟨"C1", 850, 2, ⟨2024, 2, 3⟩, some "Chicago", ⟨2020, 6, 1⟩,
          1852⟩ : SummaryRow).join_date : Int) :=
  C8_tenure_days.1
    [⟨"C1", "Ann", "Lee", "ann@x.com", "Chicago", ⟨2020, 6, 1⟩⟩]
    [⟨"P1", "C1", "Milk", 1, 300, "S1", ⟨2024, 1, 2⟩, 300⟩,
     ⟨"P2", "C1", "Bread", 1, 550, "S1", ⟨2024, 2, 3⟩, 550⟩]
    ⟨"C1", 850, 2, ⟨2024, 2, 3⟩, some "Chicago", ⟨2020, 6, 1⟩, 1852⟩
    (by decide)

/-- C9 (amended): a parse failure on the `join_date` of a customer record
that survives deduplication and the email filter, or on the
`purchase_date` of a purchase record with positive quantity and price,
aborts the run and nothing is written; in every run either all three
output files are produced or none is.  The claim's stronger antecedent
("any bad date in the input") is refuted by the counterexample: a record
dropped by an earlier validation stage never reaches the date parser. -/
theorem C9_abort_on_parse_failure :
    ∀ (cs : List Customer) (ps : List Purchase),
      ((∃ c ∈ customerStage cs, dvParse c.join_date = none) →
        Pipeline.outputFiles cs ps = []) ∧
      ((∃ p ∈ purchaseStage ps, dvParse p.purchase_date = none) →
        Pipeline.outputFiles cs ps = []) ∧
      (Pipeline.outputFiles cs ps = [] ∨
        Pipeline.outputFiles cs ps =
          ["customers.csv", "purchases.csv", "customer_summary.csv"]) := by
  intro cs ps
  refine ⟨?_, ?_, ?_⟩
  · rintro ⟨c, hc, hnone⟩
    have h1 : clean_customer_data cs = none := by
      refine traverseOpt_none hc ?_
      unfold parseCustomer
      rw [hnone]
      rfl
    unfold Pipeline.outputFiles Pipeline.main
    rw [h1]
  · rintro ⟨p, hp, hnone⟩
    have h1 : clean_purchase_data ps = none := by
      refine traverseOpt_none hp ?_
      unfold parsePurchase
      rw [hnone]
      rfl
    unfold Pipeline.outputFiles Pipeline.main
    cases hcc : clean_customer_data cs with
    | none => rfl
    | some cleaned => rw [h1]
  · unfold Pipeline.outputFiles
    cases Pipeline.main cs ps with
    | none => exact Or.inl rfl
    | some t => exact Or.inr rfl

/-- C9 counterexample: a customer record whose join_date "not-a-date"
cannot be parsed, but whose email is invalid, is dropped by the email
filter before the date conversion runs, so the run succeeds and writes all
three files — refuting "any unparseable date in the input aborts the
run". -/
theorem C9_counterexample :
    dvParse (.strv "not-a-date") = none ∧
    Pipeline.outputFiles
        [⟨"CUST_00001", "John", "Smith", "not-an-email", "New York", .strv "not-a-date"⟩]
        [] =
      ["customers.csv", "purchases.csv", "customer_summary.csv"] := by
  decide

/-- C9 witness: a surviving customer row with invalid date (month 13)
aborts the run, and so does a surviving purchase row with a malformed
date; in both cases nothing is written. -/
theorem C9_witness :
    Pipeline.outputFiles
        [⟨"CUST_00001", "John", "Smith", "john@x.com", "New York", .strv "2020-13-45"⟩]
        [] = [] ∧
    Pipeline.outputFiles []
        [⟨"PUR_000001", "CUST_00001", "Milk", 1, 300, "Store_A", .strv "bad-date"⟩] = [] :=
  ⟨(C9_abort_on_parse_failure
      [⟨"CUST_00001", "John", "Smith", "john@x.com", "New York", .strv "2020-13-45"⟩]
      []).1 (by decide),
   (C9_abort_on_parse_failure []
      [⟨"PUR_000001", "CUST_00001", "Milk", 1, 300, "Store_A", .strv "bad-date"⟩]).2.1
      (by decide)⟩

/-- C10 (confirmed): every summary row built from cleaned purchases has
purchase_count at least 1 and strictly positive total_spent, because each
summary row aggregates a nonempty group of cleaned purchases, each with
positive total_amount. -/
theorem C10_summary_rows_positive :
    ∀ (ps : List Purchase) (cc : List CCustomer) (cp : List CPurchase),
      clean_purchase_data ps = some cp →
      ∀ r ∈ transform_data cc cp, 1 ≤ r.purchase_count ∧ 0 < r.total_spent := by
  intro ps cc cp hclean r hr
  obtain ⟨k, hk, c, hc, hck, rfl⟩ := mem_transform hr
  have hkm : k ∈ (mergeLeft cc cp).map (fun x => x.purchase.customer_id) :=
    mem_dedupKeys.mp hk
  have hgne : groupRows (mergeLeft cc cp) k ≠ [] := groupRows_ne_nil hkm
  constructor
  · show 1 ≤ (groupRows (mergeLeft cc cp) k).length
    have hpos := List.length_pos.mpr hgne
    omega
  · show 0 < ((groupRows (mergeLeft cc cp) k).map (fun x => x.purchase.total_amount)).sum
    refine List.sum_pos _ ?_ ?_
    · intro x hx
      rw [List.mem_map] at hx
      obtain ⟨row, hrow, rfl⟩ := hx
      have hrm : row ∈ mergeLeft cc cp := (List.mem_filter.mp hrow).1
      obtain ⟨hq, hpr, ht⟩ := clean_purchase_mem hclean _ (mem_mergeLeft_purchase hrm)
      rw [ht]
      exact mul_pos hq hpr
    · rw [ne_eq, List.map_eq_nil_iff]
      exact hgne

/-- C10 witness: a concrete summary row has count at least 1 and positive
total spend. -/
theorem C10_witness :
    1 ≤ (⟨"C1", 850, 2, ⟨2024, 2, 3⟩, some "Chicago", ⟨2020, 6, 1⟩,
        1852⟩ : SummaryRow).purchase_count ∧
    0 < (⟨"C1", 850, 2, ⟨2024, 2, 3⟩, some "Chicago", ⟨2020, 6, 1⟩,
        1852⟩ : SummaryRow).total_spent :=
  C10_summary_rows_positive
    [⟨"P1", "C1", "Milk", 1, 300, "S1", .strv "2024-01-02"⟩,
     ⟨"P2", "C1", "Bread", 1, 550, "S1", .strv "2024-02-03"⟩]
    [⟨"C1", "Ann", "Lee", "ann@x.com", "Chicago", ⟨2020, 6, 1⟩⟩]
    [⟨"P1", "C1", "Milk", 1, 300, "S1", ⟨2024, 1, 2⟩, 300⟩,
     ⟨"P2", "C1", "Bread", 1, 550, "S1", ⟨2024, 2, 3⟩, 550⟩]
    (by decide)
    ⟨"C1", 850, 2, ⟨2024, 2, 3⟩, some "Chicago", ⟨2020, 6, 1⟩, 1852⟩
    (by decide)
